import Mathlib

/-!
Verification development for the beancount language-server repository.

The definitions below are shallow embeddings of the TypeScript sources:

* `SemanticTokensProvider` (the tree-sitter based provider):
  the classification dispatch of `buildTokens`, the legend negotiation of
  `computeLegend`, the per-uri builder cache of `getTokenBuilder`, and the
  request handlers `handleSemantic` / `handleSemanticDelta`.
* `BeancountServer.onDidSaveTextDocument` (server.ts): the validator-output
  split, the diagnostic grouping, and the per-file dispatch loop.

Entities that live outside the repository sources (the language-server
library's `SemanticTokensBuilder`, the external-process runner and the
`provideDiagnostics` module) are modelled from the specification; each such
definition says so in its doc comment.
-/

/-- A (row, column) source position, zero-based, as in tree-sitter `Point`. -/
structure Pos where
  row : Nat
  col : Nat
deriving DecidableEq, Repr

/-- Non-strict document order on positions: earlier row, or same row and
earlier-or-equal column. -/
def Pos.le (p q : Pos) : Prop :=
  p.row < q.row ∨ (p.row = q.row ∧ p.col ≤ q.col)

/-- Strict document order on positions. -/
def Pos.lt (p q : Pos) : Prop :=
  p.row < q.row ∨ (p.row = q.row ∧ p.col < q.col)

instance (p q : Pos) : Decidable (Pos.le p q) := by
  unfold Pos.le; infer_instance

instance (p q : Pos) : Decidable (Pos.lt p q) := by
  unfold Pos.lt; infer_instance

/-- One classified span pushed onto the builder: the five arguments of
`builder.push(line, char, length, tokenType, tokenModifiers)`. -/
structure Token where
  line : Nat
  char : Nat
  len : Nat
  tokenType : Nat
  tokenModifiers : Nat
deriving DecidableEq, Repr

/-- The start position of a token. -/
def Token.pos (t : Token) : Pos := ⟨t.line, t.char⟩

/-! The server's token-type enumeration (`SemanticTokensProvider.TokenTypes`):
`comment = 0`, `keyword = 1`, `string = 2`, `number = 3`, `type = 4`,
`property = 5`, `parameter = 6`, `label = 7`, `constant = 8`, `_ = 16`. -/

namespace TokenTypes

def comment : Nat := 0
def keyword : Nat := 1
def string : Nat := 2
def number : Nat := 3
def type : Nat := 4
def property : Nat := 5
def parameter : Nat := 6
def label : Nat := 7
def constant : Nat := 8

/-- The sentinel member `_ = 16` that bounds the negotiation loop. -/
def stop : Nat := 16

/-- The enum's reverse lookup `TokenTypes[i]`: the name of the member with
numeric value `i`, or `undefined` (here `none`) when no member has value `i`
(values 9 to 15 are unused; `16` maps to the sentinel). -/
def toName : Nat → Option String
  | 0 => some "comment"
  | 1 => some "keyword"
  | 2 => some "string"
  | 3 => some "number"
  | 4 => some "type"
  | 5 => some "property"
  | 6 => some "parameter"
  | 7 => some "label"
  | 8 => some "constant"
  | _ => none

end TokenTypes

/-! The server's token-modifier enumeration
(`SemanticTokensProvider.TokenModifiers`): `abstract = 0`, `deprecated = 1`,
`_ = 2`. -/

namespace TokenModifiers

def abstract : Nat := 0
def deprecated : Nat := 1

/-- The sentinel member `_ = 2` that bounds the negotiation loop. -/
def stop : Nat := 2

/-- The enum's reverse lookup `TokenModifiers[i]`. -/
def toName : Nat → Option String
  | 0 => some "abstract"
  | 1 => some "deprecated"
  | _ => none

end TokenModifiers

/-- The classification dispatch of `buildTokens`' traversal: the chain of
`node.type` comparisons, mapping a node kind to the pushed token type.
Kinds not tested by any branch yield `none` (no push). -/
def classify : String → Option Nat
  | "date" => some TokenTypes.number
  | "txn" => some TokenTypes.property
  | "account" => some TokenTypes.type
  | "amount" => some TokenTypes.number
  | "incomplete_amount" => some TokenTypes.number
  | "currency" => some TokenTypes.property
  | "key" => some TokenTypes.label
  | "string" => some TokenTypes.string
  | "tag" => some TokenTypes.constant
  | "comment" => some TokenTypes.comment
  | _ => none

mutual
/-- A parsed tree node as the traversal reads it: `node.type`,
`node.startPosition`, `node.endPosition`, `node.text.length`, and the child
nodes visited via the tree cursor. -/
inductive TSTree where
  | node (kind : String) (startPos endPos : Pos) (textLen : Nat)
      (children : TSTreeList) : TSTree

/-- The ordered children of a node. -/
inductive TSTreeList where
  | nil : TSTreeList
  | cons (hd : TSTree) (tl : TSTreeList) : TSTreeList
end

/-- The kind tag of a node. -/
def TSTree.kind : TSTree → String
  | .node k _ _ _ _ => k

/-- The start position of a node. -/
def TSTree.startPos : TSTree → Pos
  | .node _ s _ _ _ => s

/-- The end position of a node. -/
def TSTree.endPos : TSTree → Pos
  | .node _ _ e _ _ => e

mutual
/-- The tokens pushed by the `traverse` closure defined inside `buildTokens`:
visit the current node, push one token at its start position (length
`node.text.length`, type from `classify`, modifier
`TokenModifiers.abstract`) when its kind is classified, then recurse into
every child in order. -/
def traverseTokens : TSTree → List Token
  | .node kind s _ textLen children =>
    (match classify kind with
     | some tt => [⟨s.row, s.col, textLen, tt, TokenModifiers.abstract⟩]
     | none => []) ++ traverseList children

/-- Traversal of a child list, left to right. -/
def traverseList : TSTreeList → List Token
  | .nil => []
  | .cons t ts => traverseTokens t ++ traverseList ts
end

/-- The negotiated legend: ordered token-type names and token-modifier
names. -/
structure Legend where
  tokenTypes : List String
  tokenModifiers : List String
deriving DecidableEq, Repr

/-- `SemanticTokensProvider.computeLegend`: for `i` from `0` to the sentinel,
look up the enum name of value `i`; keep it when the client's declared set
contains it. `TokenTypes[i]` is `undefined` for unused values, and
`Set.has(undefined)` is false, so unused values contribute nothing. -/
def computeLegend (clientTokenTypes clientTokenModifiers : List String) :
    Legend where
  tokenTypes :=
    (List.range TokenTypes.stop).filterMap fun i =>
      match TokenTypes.toName i with
      | some s => if clientTokenTypes.contains s then some s else none
      | none => none
  tokenModifiers :=
    (List.range TokenModifiers.stop).filterMap fun i =>
      match TokenModifiers.toName i with
      | some s => if clientTokenModifiers.contains s then some s else none
      | none => none

/-- A single edit of a token-stream delta, from the wire contract:
`(startTokenIndex, deleteCount, insertedTokens)`. -/
structure TokenEdit where
  start : Nat
  deleteCount : Nat
  data : List Nat
deriving DecidableEq, Repr

/-- A semantic-tokens response: either a full stream (`{data, resultId?}`,
the shape both handlers return) or a delta (`{edits}`) from the wire
contract. -/
inductive SemanticTokensResult where
  | full (resultId : Option Nat) (data : List Nat) : SemanticTokensResult
  | delta (resultId : Nat) (edits : List TokenEdit) : SemanticTokensResult
deriving DecidableEq, Repr

/-- Whether a response is an edit list (a delta) rather than a full
stream. -/
def SemanticTokensResult.isEditList : SemanticTokensResult → Bool
  | .full _ _ => false
  | .delta _ _ => true

/-- The flat integer data of a full response. -/
def SemanticTokensResult.dataOf : SemanticTokensResult → List Nat
  | .full _ d => d
  | .delta _ _ => []

/-- The result id of a response (`0` when the response carries none). -/
def SemanticTokensResult.resultIdOf : SemanticTokensResult → Nat
  | .full (some i) _ => i
  | .full none _ => 0
  | .delta i _ => i

/-- Modelled from the spec: the wire encoding of a token stream, "a flat
integer sequence encoding (deltaLine, deltaStartChar, length, categoryIndex,
modifierBitset) per token", each token's coordinates relative to the
previous one. `prevLine`/`prevChar` carry the previous absolute position. -/
def deltaEncodeFrom : Nat → Nat → List Token → List Nat
  | _, _, [] => []
  | prevLine, prevChar, t :: ts =>
    (t.line - prevLine) ::
      (if t.line = prevLine then t.char - prevChar else t.char) ::
      t.len :: t.tokenType :: t.tokenModifiers ::
      deltaEncodeFrom t.line t.char ts

/-- Wire encoding of a whole stream, starting from position `(0, 0)`. -/
def deltaEncode (ts : List Token) : List Nat := deltaEncodeFrom 0 0 ts

/-- Modelled from the spec: the per-document token cache behind the
language-server library's `SemanticTokensBuilder` (the class itself is not
part of this repository). It holds an opaque result id, the tokens pushed
since the last (re)initialization, and the previous stream retained for
delta computation. -/
structure SemanticTokensBuilder where
  id : Nat
  data : List Token
  prevData : Option (List Token)
deriving DecidableEq, Repr

/-- A freshly constructed builder: no tokens, no previous stream; the result
id is an opaque fresh value supplied by the environment. -/
def SemanticTokensBuilder.new (freshId : Nat) : SemanticTokensBuilder :=
  ⟨freshId, [], none⟩

/-- Modelled from the spec: `push` appends one classified span to the
current stream. -/
def SemanticTokensBuilder.push (b : SemanticTokensBuilder) (t : Token) :
    SemanticTokensBuilder :=
  { b with data := b.data ++ [t] }

/-- Modelled from the spec: `previousResult(id)` retains the current stream
for delta computation when `id` matches the builder's result id (otherwise
there is no usable prior state), then reinitializes the builder with a fresh
id and an empty stream. -/
def SemanticTokensBuilder.previousResult (b : SemanticTokensBuilder)
    (pid freshId : Nat) : SemanticTokensBuilder :=
  { id := freshId, data := [],
    prevData := if b.id = pid then some b.data else none }

/-- Modelled from the spec: `build()` returns the full stream
`{resultId, data}` with the wire-encoded current tokens and discards the
retained previous stream. -/
def SemanticTokensBuilder.build (b : SemanticTokensBuilder) :
    SemanticTokensResult × SemanticTokensBuilder :=
  (.full (some b.id) (deltaEncode b.data), { b with prevData := none })

/-- `buildTokens` from the source: it creates a tree cursor and defines the
recursive `traverse` closure over it (embedded above as `traverseTokens`),
but the closure is never invoked — the function body ends after the
definition — so no token is ever pushed and the builder is returned
unchanged. -/
def buildTokens (builder : SemanticTokensBuilder) (tree : TSTree) :
    SemanticTokensBuilder :=
  builder

/-- The tree store: `Forest`, mapping a document uri to its parsed tree
(`getByUri` returns the tree container). -/
abbrev Forest := List (String × TSTree)

/-- `forest.getByUri(uri)`: the tree for a document, or `none` when the
provider has no tree for it. -/
def Forest.getByUri (f : Forest) (uri : String) : Option TSTree :=
  (f.find? fun p => p.1 == uri).map (·.2)

/-- The provider's per-uri builder cache `tokenBuilders : Map<string,
SemanticTokensBuilder>`. -/
abbrev BuilderMap := List (String × SemanticTokensBuilder)

/-- `tokenBuilders.get(uri)`. -/
def BuilderMap.get? (m : BuilderMap) (uri : String) :
    Option SemanticTokensBuilder :=
  (m.find? fun p => p.1 == uri).map (·.2)

/-- `tokenBuilders.set(uri, builder)`: replace the entry when present,
append it otherwise. -/
def BuilderMap.set (m : BuilderMap) (uri : String)
    (b : SemanticTokensBuilder) : BuilderMap :=
  if m.any fun p => p.1 == uri then
    m.map fun p => if p.1 == uri then (uri, b) else p
  else
    m ++ [(uri, b)]

/-- `SemanticTokensProvider.getTokenBuilder`: return the cached builder for
the uri, or create, cache and return a fresh one. The fresh id models the
timestamp the library takes at construction. -/
def getTokenBuilder (m : BuilderMap) (uri : String) (freshId : Nat) :
    SemanticTokensBuilder × BuilderMap :=
  match m.get? uri with
  | some b => (b, m)
  | none =>
    let b := SemanticTokensBuilder.new freshId
    (b, m.set uri b)

/-- `SemanticTokensProvider.handleSemantic`: on a full request, look up the
document's tree; when absent answer `{data: []}`; otherwise run
`buildTokens` on the cached builder and answer `builder.build()`. Returns
the response and the updated builder cache. -/
def handleSemantic (forest : Forest) (m : BuilderMap) (uri : String)
    (freshId : Nat) : SemanticTokensResult × BuilderMap :=
  match forest.getByUri uri with
  | none => (.full none [], m)
  | some tree =>
    let (b, m1) := getTokenBuilder m uri freshId
    let b1 := buildTokens b tree
    let (res, b2) := b1.build
    (res, m1.set uri b2)

/-- `SemanticTokensProvider.handleSemanticDelta`: on a delta request, look
up the document's tree; when absent answer `{data: []}`; otherwise call
`builder.previousResult(previousResultId)`, run `buildTokens`, and answer
`builder.build()` — a full stream, never an edit list. -/
def handleSemanticDelta (forest : Forest) (m : BuilderMap) (uri : String)
    (previousResultId freshId : Nat) : SemanticTokensResult × BuilderMap :=
  match forest.getByUri uri with
  | none => (.full none [], m)
  | some tree =>
    let (b, m1) := getTokenBuilder m uri freshId
    let b1 := b.previousResult previousResultId freshId
    let b2 := buildTokens b1 tree
    let (res, b3) := b2.build
    (res, m1.set uri b3)

/-- Two encode calls on the same unedited document starting from an empty
builder cache: a full request, then a delta request supplying the result id
the full request returned. Yields both responses. -/
def twoCallRun (forest : Forest) (uri : String) (id1 id2 : Nat) :
    SemanticTokensResult × SemanticTokensResult :=
  let (r1, m1) := handleSemantic forest [] uri id1
  let (r2, _) := handleSemanticDelta forest m1 uri r1.resultIdOf id2
  (r1, r2)

/-- Splitting a character list at every occurrence of `sep`; `acc` holds the
current segment reversed. Mirrors the semantics of JavaScript
`String.prototype.split` with a one-character separator. -/
def splitCharAux (sep : Char) : List Char → List Char → List (List Char)
  | [], acc => [acc.reverse]
  | c :: cs, acc =>
    if c = sep then acc.reverse :: splitCharAux sep cs []
    else splitCharAux sep cs (c :: acc)

/-- `s.split(sep)` for a one-character separator. -/
def splitChar (sep : Char) (s : String) : List String :=
  (splitCharAux sep s.data []).map fun l => ⟨l⟩

/-- Decimal parsing of a character list: `some n` when the list is a
non-empty run of digits, `none` otherwise. -/
def charsToNat? (cs : List Char) : Option Nat :=
  if cs ≠ [] ∧ cs.all (fun c => c.isDigit) then
    some (cs.foldl (fun n c => n * 10 + (c.toNat - 48)) 0)
  else none

/-- Dropping leading blanks from a string (the space after the colon of a
validator message). -/
def trimLeading (s : String) : String :=
  ⟨s.data.dropWhile fun c => c = ' '⟩

/-- POSIX `path.dirname`: everything before the last separator; `.` when the
path has no separator; `/` for a file directly under the root. -/
def dirname (p : String) : String :=
  let parts := splitChar '/' p
  if parts.length ≤ 1 then "."
  else
    let d := String.intercalate "/" parts.dropLast
    if d = "" then "/" else d

/-- POSIX `path.basename`: the last separator-delimited segment. -/
def basename (p : String) : String :=
  ((splitChar '/' p).getLast? ).getD p

/-- Segment-wise core of `path.relative`: drop the common prefix, then one
`..` per remaining segment of the origin followed by the remaining segments
of the target. -/
def relSegs : List String → List String → List String
  | [], ts => ts
  | f :: fs, [] => List.replicate (f :: fs).length ".."
  | f :: fs, t :: ts =>
    if f = t then relSegs fs ts
    else List.replicate (f :: fs).length ".." ++ (t :: ts)

/-- POSIX `path.relative(from, to)` for absolute inputs: the separated-path
walk from `from` to `to` (empty when they coincide). -/
def relativePath (fromPath toPath : String) : String :=
  String.intercalate "/"
    (relSegs ((splitChar '/' fromPath).filter (· ≠ ""))
      ((splitChar '/' toPath).filter (· ≠ "")))

/-- Severity of a parsed validator finding: errors-section entries are
errors, flagged-section entries are warnings. -/
inductive Severity where
  | error : Severity
  | warning : Severity
deriving DecidableEq, Repr

/-- One positioned diagnostic: zero-based line, severity, message. -/
structure Diagnostic where
  line : Nat
  severity : Severity
  message : String
deriving DecidableEq, Repr

/-- One parsed line of validator output: absolute file path, 1-based line
number, message text. -/
structure ValidatorEntry where
  file : String
  line : Nat
  message : String
deriving DecidableEq, Repr

/-- Modelled from the spec: parsing of one flagged-entry line of the form
`<file>:<line>: <message>` (the `provideDiagnostics` module is not among
the repository sources). A line that does not match the positional pattern
is dropped, never a hard failure. -/
def parseEntryLine (line : String) : Option ValidatorEntry :=
  match splitChar ':' line with
  | file :: lineStr :: msgParts =>
    if file = "" ∨ msgParts = [] then none
    else
      match charsToNat? lineStr.data with
      | some n =>
        some ⟨file, n, trimLeading (String.intercalate ":" msgParts)⟩
      | none => none
  | _ => none

/-- Modelled from the spec: line-oriented, tolerant parsing of one output
section into its ordered entries. -/
def parseSection (text : String) : List ValidatorEntry :=
  (splitChar '\n' text).filterMap parseEntryLine

/-- Modelled from the spec: a parsed entry becomes a diagnostic with a
zero-based range covering the reported (1-based) line. -/
def entryToDiagnostic (sev : Severity) (e : ValidatorEntry) : Diagnostic :=
  ⟨e.line - 1, sev, e.message⟩

/-- The per-run mapping from absolute file path to its ordered diagnostics. -/
abbrev DiagnosticGroup := List (String × List Diagnostic)

/-- Append one diagnostic to its file's list, preserving first-seen key
order and in-file input order. -/
def DiagnosticGroup.add (g : DiagnosticGroup) (file : String)
    (d : Diagnostic) : DiagnosticGroup :=
  if g.any fun p => p.1 == file then
    g.map fun p => if p.1 == file then (p.1, p.2 ++ [d]) else p
  else
    g ++ [(file, [d])]

/-- Modelled from the spec: `provideDiagnostics(errors, flagged)` parses the
two sections (errors section → error severity, flagged section → warning
severity) and groups the resulting diagnostics by absolute file path,
preserving input order within each file. -/
def provideDiagnostics (errors flagged : String) : DiagnosticGroup :=
  let errorDiags := (parseSection errors).map fun e =>
    (e.file, entryToDiagnostic .error e)
  let flaggedDiags := (parseSection flagged).map fun e =>
    (e.file, entryToDiagnostic .warning e)
  (errorDiags ++ flaggedDiags).foldl (fun g fd => g.add fd.1 fd.2) []

/-- The section split of `onDidSaveTextDocument`:
`const output = text.split('\n', 3)` takes at most the first three
newline-delimited segments; `errors = output[0]`, `flagged = output[1]`. -/
def onSaveSections (text : String) : List String :=
  (splitChar '\n' text).take 3

/-- The diagnostic group computed by `onDidSaveTextDocument` from the
validator's output text: `provideDiagnostics(output[0], output[1])`. When
the blob has no newline, `output[1]` is absent (`undefined`), modelled as
the empty section, which parses to no entries. -/
def saveDiagnostics (text : String) : DiagnosticGroup :=
  let output := onSaveSections text
  provideDiagnostics (output.getD 0 "") (output.getD 1 "")

/-- One `connection.sendDiagnostics` call: target document identity and the
full diagnostic list delivered for it. -/
structure PublishCall where
  uri : String
  diagnostics : List Diagnostic
deriving DecidableEq, Repr

/-- The document identity a file key is rewritten to before dispatch:
`'file://' + path.relative(path.dirname(root), path.dirname(file)) +
path.sep + path.basename(file)`. -/
def publishUri (rootFile file : String) : String :=
  "file://" ++ relativePath (dirname rootFile) (dirname file) ++ "/"
    ++ basename file

/-- The dispatch loop of `onDidSaveTextDocument`: one `sendDiagnostics` call
per file key of the group, in key order, carrying that file's full
diagnostic list under the rewritten identity. -/
def dispatchDiagnostics (rootFile : String) (g : DiagnosticGroup) :
    List PublishCall :=
  g.map fun p => ⟨publishUri rootFile p.1, p.2⟩

/-- An externally observable action of the save handler. -/
inductive SaveEffect where
  | publish (call : PublishCall) : SaveEffect
  | logError (msg : String) : SaveEffect
deriving DecidableEq, Repr

/-- Whether an effect is a diagnostics publish. -/
def SaveEffect.isPublish : SaveEffect → Bool
  | .publish _ => true
  | .logError _ => false

/-- Modelled from the spec: the outcome `runExternalCommand` delivers (the
runner itself is not among the repository sources) — the success callback
receives the process output (possibly absent), or the error callback
receives a message on spawn failure, non-zero exit or stream error. -/
inductive RunResult where
  | success (text : Option String) : RunResult
  | failure (msg : String) : RunResult
deriving DecidableEq, Repr

/-- The observable effects of `onDidSaveTextDocument` for one validator run:
on failure the error callback logs to `connection.console.error`; on
success the guard `if (text)` skips everything when the output is absent or
empty, and otherwise the parsed and grouped diagnostics are dispatched, one
publish per file. -/
def onDidSaveEffects (rootFile : String) (r : RunResult) : List SaveEffect :=
  match r with
  | .failure msg => [.logError msg]
  | .success none => []
  | .success (some text) =>
    if text = "" then []
    else (dispatchDiagnostics rootFile (saveDiagnostics text)).map .publish

/-- The server's canonical ordered token-type names: the defined members of
the `TokenTypes` enumeration in value order. -/
def serverTokenTypeNames : List String :=
  ["comment", "keyword", "string", "number", "type", "property",
   "parameter", "label", "constant"]

/-- The server's canonical ordered token-modifier names. -/
def serverTokenModifierNames : List String :=
  ["abstract", "deprecated"]

/-- A one-node tree: a `date` node spanning ten characters at the document
start. -/
def exampleDateTree : TSTree := .node "date" ⟨0, 0⟩ ⟨0, 10⟩ 10 .nil

/-- An `incomplete_amount` node whose only child is the `currency` node it
consists of: parent and child start at the same position and both kinds are
classified. -/
def exampleAmountTree : TSTree :=
  .node "incomplete_amount" ⟨0, 5⟩ ⟨0, 8⟩ 3
    (.cons (.node "currency" ⟨0, 5⟩ ⟨0, 8⟩ 3 .nil) .nil)

/-- A document uri for the examples. -/
def exampleUri : String := "file:///ledger/main.bean"

/-- A forest holding a tree for `exampleUri`. -/
def exampleForest : Forest := [(exampleUri, exampleDateTree)]

/-- The validator output blob of the specification's worked example. -/
def exampleValidatorOutput : String :=
  "2 errors found\n\n/a/b.bean:10: Unbalanced entry\n/a/b.bean:12: Missing account\n"

mutual
/-- Positional well-formedness of a parsed tree, as tree-sitter guarantees
it: a node's span is ordered, every child's span lies inside its parent's,
and consecutive siblings do not overlap (each child starts at or after the
previous child's end). -/
def Wf : TSTree → Prop
  | .node _ s e _ cs => Pos.le s e ∧ WfChildren s e cs

/-- Well-formedness of a child list between a lower bound (the parent's
start, then the previous sibling's end) and the parent's end. -/
def WfChildren : Pos → Pos → TSTreeList → Prop
  | _, _, .nil => True
  | lo, hi, .cons c cs =>
    Pos.le lo c.startPos ∧ Pos.le c.endPos hi ∧ Wf c
      ∧ WfChildren c.endPos hi cs
end

mutual
/-- Decidability of `Wf`. -/
def decWf : (t : TSTree) → Decidable (Wf t)
  | .node _ s e _ cs =>
    have : Decidable (WfChildren s e cs) := decWfChildren s e cs
    decidable_of_iff (Pos.le s e ∧ WfChildren s e cs) (by rw [Wf])

/-- Decidability of `WfChildren`. -/
def decWfChildren : (lo hi : Pos) → (cs : TSTreeList) →
    Decidable (WfChildren lo hi cs)
  | _, _, .nil => decidable_of_iff True (by rw [WfChildren])
  | lo, hi, .cons c cs =>
    have : Decidable (Wf c) := decWf c
    have : Decidable (WfChildren c.endPos hi cs) := decWfChildren c.endPos hi cs
    decidable_of_iff
      (Pos.le lo c.startPos ∧ Pos.le c.endPos hi ∧ Wf c
        ∧ WfChildren c.endPos hi cs) (by rw [WfChildren])
end

instance (t : TSTree) : Decidable (Wf t) := decWf t

instance (lo hi : Pos) (cs : TSTreeList) : Decidable (WfChildren lo hi cs) :=
  decWfChildren lo hi cs

/-- Document order between token start positions. -/
def tokLe (a b : Token) : Prop := Pos.le a.pos b.pos

/-- Strict document order between token start positions. -/
def tokLt (a b : Token) : Prop := Pos.lt a.pos b.pos

instance (a b : Token) : Decidable (tokLe a b) := by
  unfold tokLe; infer_instance

instance (a b : Token) : Decidable (tokLt a b) := by
  unfold tokLt; infer_instance

/-!  Helper lemmas (not themselves claim theorems).  -/

theorem Pos.le_refl (p : Pos) : Pos.le p p := Or.inr ⟨rfl, Nat.le_refl _⟩

theorem Pos.le_trans {p q r : Pos} (h₁ : Pos.le p q) (h₂ : Pos.le q r) :
    Pos.le p r := by
  rcases h₁ with h₁ | ⟨e₁, c₁⟩ <;> rcases h₂ with h₂ | ⟨e₂, c₂⟩
  · exact Or.inl (Nat.lt_trans h₁ h₂)
  · exact Or.inl (e₂ ▸ h₁)
  · exact Or.inl (e₁ ▸ h₂)
  · exact Or.inr ⟨e₁.trans e₂, Nat.le_trans c₁ c₂⟩

theorem Wf.start_le_end {t : TSTree} (h : Wf t) :
    Pos.le t.startPos t.endPos := by
  match t with
  | .node k s e n cs => rw [Wf] at h; exact h.1

mutual
theorem mem_traverseTokens_spec (t : TSTree) (tok : Token)
    (h : tok ∈ traverseTokens t) :
    ∃ kind, classify kind = some tok.tokenType
      ∧ tok.tokenModifiers = TokenModifiers.abstract := by
  match t with
  | .node kind s e len cs =>
    rw [traverseTokens] at h
    rcases List.mem_append.mp h with h1 | h2
    · cases hc : classify kind with
      | none => rw [hc] at h1; simp at h1
      | some tt =>
        rw [hc] at h1
        simp only [List.mem_singleton] at h1
        subst h1
        exact ⟨kind, hc, rfl⟩
    · exact mem_traverseList_spec cs tok h2

theorem mem_traverseList_spec (cs : TSTreeList) (tok : Token)
    (h : tok ∈ traverseList cs) :
    ∃ kind, classify kind = some tok.tokenType
      ∧ tok.tokenModifiers = TokenModifiers.abstract := by
  match cs with
  | .nil => rw [traverseList] at h; simp at h
  | .cons c cs' =>
    rw [traverseList] at h
    rcases List.mem_append.mp h with h1 | h2
    · exact mem_traverseTokens_spec c tok h1
    · exact mem_traverseList_spec cs' tok h2
end

mutual
theorem traverseTokens_sorted (t : TSTree) (h : Wf t) :
    List.Chain' tokLe (traverseTokens t)
    ∧ ∀ tok ∈ traverseTokens t,
        Pos.le t.startPos tok.pos ∧ Pos.le tok.pos t.endPos := by
  match t with
  | .node kind s e len cs =>
    rw [Wf] at h
    obtain ⟨hse, hcs⟩ := h
    obtain ⟨hchain, hbounds⟩ := traverseList_sorted s e cs hcs
    rw [traverseTokens]
    cases hc : classify kind with
    | none =>
      refine ⟨by simpa using hchain, ?_⟩
      intro tok htok
      simp only [List.nil_append] at htok
      exact hbounds tok htok
    | some tt =>
      constructor
      · simp only [List.singleton_append]
        rw [List.chain'_cons']
        refine ⟨?_, hchain⟩
        intro b hb
        have hmem := List.mem_of_mem_head? hb
        exact (hbounds b hmem).1
      · intro tok htok
        simp only [List.singleton_append, List.mem_cons] at htok
        rcases htok with rfl | hmem
        · exact ⟨Pos.le_refl _, hse⟩
        · obtain ⟨h1, h2⟩ := hbounds tok hmem
          exact ⟨h1, h2⟩

theorem traverseList_sorted (lo hi : Pos) (cs : TSTreeList)
    (h : WfChildren lo hi cs) :
    List.Chain' tokLe (traverseList cs)
    ∧ ∀ tok ∈ traverseList cs, Pos.le lo tok.pos ∧ Pos.le tok.pos hi := by
  match cs with
  | .nil =>
    rw [traverseList]
    exact ⟨List.chain'_nil, fun tok htok => absurd htok (List.not_mem_nil tok)⟩
  | .cons c cs' =>
    rw [WfChildren] at h
    obtain ⟨hlo, hhi, hwc, hrest⟩ := h
    obtain ⟨hc_chain, hc_bounds⟩ := traverseTokens_sorted c hwc
    obtain ⟨hs_chain, hs_bounds⟩ := traverseList_sorted c.endPos hi cs' hrest
    rw [traverseList]
    constructor
    · refine List.Chain'.append hc_chain hs_chain ?_
      intro x hx y hy
      have hxm := List.mem_of_mem_getLast? hx
      have hym := List.mem_of_mem_head? hy
      exact Pos.le_trans (hc_bounds x hxm).2 (hs_bounds y hym).1
    · intro tok htok
      rcases List.mem_append.mp htok with h1 | h2
      · obtain ⟨ha, hb⟩ := hc_bounds tok h1
        exact ⟨Pos.le_trans hlo ha, Pos.le_trans hb hhi⟩
      · obtain ⟨ha, hb⟩ := hs_bounds tok h2
        exact ⟨Pos.le_trans hlo (Pos.le_trans hwc.start_le_end ha), hb⟩
end

theorem filterMap_name_filter (f : Nat → Option String) (client : List String) :
    ∀ l : List Nat,
      (l.filterMap fun i =>
        match f i with
        | some s => if client.contains s then some s else none
        | none => none)
      = (l.filterMap f).filter fun s => client.contains s := by
  intro l
  induction l with
  | nil => rfl
  | cons hd tl ih =>
    cases hfc : f hd with
    | none => simp only [List.filterMap_cons, hfc]; simpa using ih
    | some s =>
      by_cases hc : s ∈ client
      · simp [List.filterMap_cons, hfc, hc, List.filter_cons]
        simpa using ih
      · simp [List.filterMap_cons, hfc, hc, List.filter_cons]
        simpa using ih

theorem range_filterMap_typeNames :
    (List.range TokenTypes.stop).filterMap TokenTypes.toName
      = serverTokenTypeNames := by decide

theorem range_filterMap_modifierNames :
    (List.range TokenModifiers.stop).filterMap TokenModifiers.toName
      = serverTokenModifierNames := by decide

theorem classify_value_named (k : String) (tt : Nat)
    (h : classify k = some tt) :
    (TokenTypes.toName tt).isSome = true := by
  unfold classify at h
  split at h <;> cases h <;> decide

/-!  Claim theorems.  -/

/-- C1: evaluation of the code at the failing input. The Classification Rule
Table (`classify`) maps kind `date`, and the `traverse` closure
(`traverseTokens`) would emit a token at the node's start for the one-node
`date` tree; but `buildTokens` never invokes the closure — it leaves every
builder unchanged — so a full encode of the document emits no token at all,
contradicting the claim that a full encode emits a token for every node of a
mapped kind. -/
theorem buildTokens_drops_traversal :
    classify "date" = some TokenTypes.number
    ∧ traverseTokens exampleDateTree
        = [⟨0, 0, 10, TokenTypes.number, TokenModifiers.abstract⟩]
    ∧ (∀ (b : SemanticTokensBuilder) (t : TSTree), buildTokens b t = b)
    ∧ (handleSemantic exampleForest [] exampleUri 1).1 = .full (some 1) [] :=
  ⟨rfl, by decide, fun b t => rfl, by decide⟩

/-- C2 counterexample: on the spec's worked validator output, the save
handler's split takes only the first two newline-delimited segments
(`"2 errors found"` and the empty line), so parsing and grouping produce no
DiagnosticGroup entry at all — not one entry for `/a/b.bean` with two
diagnostics as claimed. -/
theorem saveDiagnostics_example_refutes :
    saveDiagnostics exampleValidatorOutput = []
    ∧ (saveDiagnostics exampleValidatorOutput).length ≠ 1 := by decide

/-- C2 (amended): for that validator output, `split('\n', 3)` yields sections
`"2 errors found"` (errors) and `""` (flagged); the flagged-entry lines fall
outside the first two segments, so the run produces no flagged entries and an
empty DiagnosticGroup. -/
theorem saveDiagnostics_example_sections :
    onSaveSections exampleValidatorOutput
      = ["2 errors found", "", "/a/b.bean:10: Unbalanced entry"]
    ∧ saveDiagnostics exampleValidatorOutput
      = provideDiagnostics "2 errors found" ""
    ∧ provideDiagnostics "2 errors found" "" = [] := by decide

/-- C3: `computeLegend` returns, in the server's canonical enumeration
order, exactly the names present in both the server's enumeration and the
client's set, for token types and modifiers alike; in particular client
support {string, number, comment} negotiates to [comment, string, number]. -/
theorem computeLegend_is_filter :
    (∀ clientTypes clientMods : List String,
      (computeLegend clientTypes clientMods).tokenTypes
          = serverTokenTypeNames.filter (fun s => clientTypes.contains s)
        ∧ (computeLegend clientTypes clientMods).tokenModifiers
          = serverTokenModifierNames.filter fun s => clientMods.contains s)
    ∧ (computeLegend ["string", "number", "comment"] []).tokenTypes
        = ["comment", "string", "number"] := by
  constructor
  · intro ct cm
    constructor
    · have h1 : (computeLegend ct cm).tokenTypes
          = (List.range TokenTypes.stop).filterMap fun i =>
              match TokenTypes.toName i with
              | some s => if ct.contains s then some s else none
              | none => none := rfl
      rw [h1, filterMap_name_filter TokenTypes.toName ct,
        range_filterMap_typeNames]
    · have h2 : (computeLegend ct cm).tokenModifiers
          = (List.range TokenModifiers.stop).filterMap fun i =>
              match TokenModifiers.toName i with
              | some s => if cm.contains s then some s else none
              | none => none := rfl
      rw [h2, filterMap_name_filter TokenModifiers.toName cm,
        range_filterMap_modifierNames]
  · decide

/-- C4 counterexample: with a client supporting only `comment`, the
negotiated legend is `["comment"]`, yet the traversal emits for a `date`
node a token with category value `TokenTypes.number = 3` — not a valid
index into the one-element legend, and the mapped category name `number` is
absent from the legend although a token is produced. -/
theorem traversal_token_outside_legend :
    (computeLegend ["comment"] ["abstract"]).tokenTypes = ["comment"]
    ∧ traverseTokens exampleDateTree
        = [⟨0, 0, 10, TokenTypes.number, TokenModifiers.abstract⟩]
    ∧ ¬ TokenTypes.number
        < (computeLegend ["comment"] ["abstract"]).tokenTypes.length
    ∧ "number" ∉ (computeLegend ["comment"] ["abstract"]).tokenTypes := by
  refine ⟨by decide, by decide, by decide, by decide⟩

/-- C4 (amended): the traversal never consults the negotiated legend — every
token it emits carries the classification table's value for its node's kind,
an index valid only for the server's full enumeration (its reverse lookup is
defined there), regardless of which names the legend retained. -/
theorem traversal_tokens_server_enum (t : TSTree) (tok : Token)
    (h : tok ∈ traverseTokens t) :
    ∃ kind, classify kind = some tok.tokenType
      ∧ (TokenTypes.toName tok.tokenType).isSome = true := by
  obtain ⟨k, hk, _⟩ := mem_traverseTokens_spec t tok h
  exact ⟨k, hk, classify_value_named k _ hk⟩

/-- C4 witness: the amended theorem applied to the `date` tree's token. -/
theorem traversal_tokens_server_enum_witness :
    (⟨0, 0, 10, 3, 0⟩ : Token) ∈ traverseTokens exampleDateTree
    ∧ ∃ kind, classify kind = some (⟨0, 0, 10, 3, 0⟩ : Token).tokenType
        ∧ (TokenTypes.toName (⟨0, 0, 10, 3, 0⟩ : Token).tokenType).isSome
            = true :=
  ⟨by decide,
   traversal_tokens_server_enum exampleDateTree ⟨0, 0, 10, 3, 0⟩ (by decide)⟩

/-- C5 counterexample: on the `incomplete_amount` tree whose only child is
the `currency` node it consists of, the traversal emits two tokens with the
same start position `(0, 5)`, so the stream is not strictly sorted by
(line, column) and two tokens share a starting position. -/
theorem traversal_not_strictly_sorted :
    ¬ List.Chain' tokLt (traverseTokens exampleAmountTree)
    ∧ (traverseTokens exampleAmountTree).map Token.pos = [⟨0, 5⟩, ⟨0, 5⟩] := by
  constructor
  · intro hchain
    have he : traverseTokens exampleAmountTree
        = [⟨0, 5, 3, TokenTypes.number, TokenModifiers.abstract⟩,
           ⟨0, 5, 3, TokenTypes.property, TokenModifiers.abstract⟩] := by
      decide
    rw [he] at hchain
    rcases List.chain'_cons.mp hchain with ⟨hab, -⟩
    exact absurd hab (by decide)
  · decide

/-- C5 (amended): for every positionally well-formed syntax tree (each
child's span inside its parent's, consecutive siblings non-overlapping), the
traversal's token stream is in non-decreasing (line, column) order; equality
of adjacent start positions is possible, so the order is non-strict. -/
theorem traversal_sorted_of_wf (t : TSTree) (h : Wf t) :
    List.Chain' tokLe (traverseTokens t) :=
  (traverseTokens_sorted t h).1

/-- C5 witness: the amended theorem at the two-token example tree. -/
theorem traversal_sorted_of_wf_witness :
    Wf exampleAmountTree
    ∧ List.Chain' tokLe (traverseTokens exampleAmountTree) :=
  ⟨by decide, traversal_sorted_of_wf exampleAmountTree (by decide)⟩

/-- C6: when the tree provider has no tree for the document, both the full
and the delta handler answer `{data: []}` and leave the builder cache
unchanged; and a delta request on a document that has a tree answers a full
stream carrying a fresh result id whatever previousResultId was supplied —
in particular one matching no cached prior result. -/
theorem handlers_missing_state_safe (forest : Forest) (m : BuilderMap)
    (uri : String) (pid fid : Nat) :
    (forest.getByUri uri = none →
      handleSemantic forest m uri fid = (.full none [], m)
      ∧ handleSemanticDelta forest m uri pid fid = (.full none [], m))
    ∧ ∀ tree, forest.getByUri uri = some tree →
        ∃ d, (handleSemanticDelta forest m uri pid fid).1 = .full (some fid) d := by
  constructor
  · intro h
    constructor
    · simp [handleSemantic, h]
    · simp [handleSemanticDelta, h]
  · intro tree h
    refine ⟨[], ?_⟩
    cases hb : m.get? uri with
    | none =>
      simp [handleSemanticDelta, h, getTokenBuilder, hb, buildTokens,
        SemanticTokensBuilder.new, SemanticTokensBuilder.previousResult,
        SemanticTokensBuilder.build, deltaEncode, deltaEncodeFrom]
    | some b =>
      simp [handleSemanticDelta, h, getTokenBuilder, hb, buildTokens,
        SemanticTokensBuilder.new, SemanticTokensBuilder.previousResult,
        SemanticTokensBuilder.build, deltaEncode, deltaEncodeFrom]

/-- C6 witness: the theorem at a uri with no tree and at the example
document with an unknown previousResultId. -/
theorem handlers_missing_state_safe_witness :
    (handleSemantic [] [] "file:///none.bean" 1 = (.full none [], [])
      ∧ handleSemanticDelta [] [] "file:///none.bean" 0 1
          = (.full none [], []))
    ∧ ∃ d, (handleSemanticDelta exampleForest [] exampleUri 99 2).1
        = .full (some 2) d :=
  ⟨(handlers_missing_state_safe [] [] "file:///none.bean" 0 1).1 rfl,
   (handlers_missing_state_safe exampleForest [] exampleUri 99 2).2
     exampleDateTree rfl⟩

/-- C7 counterexample: encoding the example document twice with no edit in
between and handing the first result id to the delta handler yields a full
stream (`{resultId: 2, data: []}`), not an edit list — so the run does not
yield an empty edit list as claimed. -/
theorem delta_request_returns_full_not_edits :
    (twoCallRun exampleForest exampleUri 1 2).2 = .full (some 2) []
    ∧ ((twoCallRun exampleForest exampleUri 1 2).2).isEditList = false := by
  refine ⟨by decide, by decide⟩

/-- C7 (amended): for every document with a tree, two encode calls with no
edit in between yield, on the second (delta) call, a full stream — never an
edit list — whose data equals the first call's data. -/
theorem delta_request_full_replacement (forest : Forest) (uri : String)
    (tree : TSTree) (id1 id2 : Nat) (h : forest.getByUri uri = some tree) :
    ((twoCallRun forest uri id1 id2).2).isEditList = false
    ∧ ((twoCallRun forest uri id1 id2).2).dataOf
        = ((twoCallRun forest uri id1 id2).1).dataOf := by
  simp [twoCallRun, handleSemantic, handleSemanticDelta, h, getTokenBuilder,
    BuilderMap.get?, BuilderMap.set, List.find?, buildTokens,
    SemanticTokensBuilder.new, SemanticTokensBuilder.previousResult,
    SemanticTokensBuilder.build, SemanticTokensResult.resultIdOf,
    SemanticTokensResult.isEditList, SemanticTokensResult.dataOf,
    deltaEncode, deltaEncodeFrom]

/-- C7 witness: the amended theorem at the example document. -/
theorem delta_request_full_replacement_witness :
    Forest.getByUri exampleForest exampleUri = some exampleDateTree
    ∧ (((twoCallRun exampleForest exampleUri 1 2).2).isEditList = false
      ∧ ((twoCallRun exampleForest exampleUri 1 2).2).dataOf
          = ((twoCallRun exampleForest exampleUri 1 2).1).dataOf) :=
  ⟨rfl, delta_request_full_replacement exampleForest exampleUri
    exampleDateTree 1 2 rfl⟩

/-- C8: the dispatch loop makes exactly one publish call per file key of the
group, in key order, each carrying that file's full diagnostic list, with
the key rewritten to the identity relative to the workspace root (the
directory containing the root beancount file); concretely a file under the
root's directory is addressed by its root-relative path. -/
theorem dispatch_one_publish_per_file :
    (∀ (rootFile : String) (g : DiagnosticGroup),
      (dispatchDiagnostics rootFile g).length = g.length
      ∧ (dispatchDiagnostics rootFile g).map PublishCall.diagnostics
          = g.map Prod.snd
      ∧ (dispatchDiagnostics rootFile g).map PublishCall.uri
          = g.map fun p => publishUri rootFile p.1)
    ∧ publishUri "/home/user/ledger/main.bean" "/home/user/ledger/sub/x.bean"
        = "file://sub/x.bean" := by
  constructor
  · intro root g
    refine ⟨?_, ?_, ?_⟩ <;> simp [dispatchDiagnostics]
  · decide

/-- C9: when the validator run fails, the save handler's only effect is one
message on the operator-facing error channel; when the run yields no output
text (absent or empty), it has no effect at all — in every such case no
diagnostics publish occurs, leaving previously published diagnostics
untouched. -/
theorem save_failure_only_error_channel :
    ∀ rootFile msg : String,
      onDidSaveEffects rootFile (.failure msg) = [.logError msg]
      ∧ onDidSaveEffects rootFile (.success none) = []
      ∧ onDidSaveEffects rootFile (.success (some "")) = []
      ∧ ((onDidSaveEffects rootFile (.failure msg)).all
          fun e => !e.isPublish) = true := by
  intro rootFile msg
  exact ⟨rfl, rfl, rfl, rfl⟩

/-- C10: every token the encoder's traversal pushes carries the modifier
value `TokenModifiers.abstract` (numeric value 0), whatever node kind
produced it. -/
theorem traversal_modifier_abstract (t : TSTree) (tok : Token)
    (h : tok ∈ traverseTokens t) :
    tok.tokenModifiers = TokenModifiers.abstract := by
  obtain ⟨-, -, hm⟩ := mem_traverseTokens_spec t tok h
  exact hm

/-- C10 witness: the theorem at the `date` tree's token. -/
theorem traversal_modifier_abstract_witness :
    (⟨0, 0, 10, 3, 0⟩ : Token) ∈ traverseTokens exampleDateTree
    ∧ (⟨0, 0, 10, 3, 0⟩ : Token).tokenModifiers = TokenModifiers.abstract :=
  ⟨by decide,
   traversal_modifier_abstract exampleDateTree ⟨0, 0, 10, 3, 0⟩ (by decide)⟩
